import Mathlib

/-!
Verification of the document pagination and export pipeline of a
proposal-drafting web application.

The development shallowly embeds the relevant program fragments:

* the layout pass `checkPagination` (the pagination layout engine that
  assigns each block a leading spacer and a page-break flag);
* the PDF export slicing loop of `generatePdf` (rasterized image sliced
  into fixed-height output pages);
* the DOM-state effects of `generatePdf` and of the `handleExportPDF`
  entry point (counter-override style injection and its cleanup);
* the margin coercion of `applyPageSetup` (JavaScript `Number(s) || 50`).

Pixel quantities are embedded as `Int` (JavaScript numbers used at
integer values), export geometry in millimetres as `Rat` (JavaScript
floating point used at small rationals).  `Math.floor(a / b)` on
integers is `Int.fdiv`.
-/

namespace Naraworks

/-- Page geometry of the layout pass: the source hardcodes
`PAGE_HEIGHT`, `MARGIN_TOP`, `MARGIN_BOTTOM`; the embedding takes them
as a parameter record so the pass can be analysed at any geometry. -/
structure Geometry where
  pageHeight : Int
  marginTop : Int
  marginBottom : Int
deriving DecidableEq, Repr

/-- The geometry constants hardcoded in the editor source:
`PAGE_HEIGHT = 1123` (A4 height in pixels), `MARGIN_TOP = 75`,
`MARGIN_BOTTOM = 75`. -/
def pageGeometryA4 : Geometry := ⟨1123, 75, 75⟩

/-- A top-level content block as the layout pass sees it in the DOM:
`height` is `offsetHeight`, `marginBottom` the computed bottom margin,
`spacerStyle` the inline `marginTop` style the pass writes (the leading
spacer), `pageBreak` the `data-page-break` attribute. -/
structure DomBlock where
  height : Int
  marginBottom : Int
  spacerStyle : Int
  pageBreak : Bool
deriving DecidableEq, Repr

/-- Step 1 of the pass on one block: `block.style.marginTop = '0px'`
and `block.removeAttribute('data-page-break')`. -/
def resetBlock (b : DomBlock) : DomBlock :=
  { b with spacerStyle := 0, pageBreak := false }

/-- Step 1 of the pass: reset every block's spacer and break flag. -/
def resetBlocks (bs : List DomBlock) : List DomBlock :=
  bs.map resetBlock

/-- The body of the `blocks.forEach` loop of `checkPagination` for one
block.  Returns the updated block, its final absolute top (the position
where the block renders after any spacer), and the new `currentY`.
Mirrors the source: `blockTop = currentY`, `blockBottom = blockTop +
blockHeight`, `pageIndex = Math.floor(blockTop / PAGE_HEIGHT)`,
`validContentEnd = pageIndex*PAGE_HEIGHT + PAGE_HEIGHT - MARGIN_BOTTOM`;
if `blockBottom > validContentEnd` and the spacer
`nextPageContentStart - blockTop` is positive, the block is pushed to
`nextPageContentStart` with the spacer written and the break flag set. -/
def stepBlock (g : Geometry) (currentY : Int) (b : DomBlock) :
    DomBlock × Int × Int :=
  let blockTop := currentY
  let blockBottom := blockTop + b.height
  let pageIndex := Int.fdiv blockTop g.pageHeight
  let pageStart := pageIndex * g.pageHeight
  let validContentEnd := pageStart + g.pageHeight - g.marginBottom
  if blockBottom > validContentEnd then
    let nextPageContentStart := (pageIndex + 1) * g.pageHeight + g.marginTop
    let spacer := nextPageContentStart - blockTop
    if spacer > 0 then
      ({ b with spacerStyle := spacer, pageBreak := true },
        nextPageContentStart,
        nextPageContentStart + b.height + b.marginBottom)
    else
      (b, blockTop, currentY + b.height + b.marginBottom)
  else
    (b, blockTop, currentY + b.height + b.marginBottom)

/-- The `blocks.forEach` placement loop of `checkPagination`, carrying
`currentY` forward; each element of the result pairs the updated DOM
block with its final absolute top. -/
def paginateLoop (g : Geometry) (currentY : Int) :
    List DomBlock → List (DomBlock × Int)
  | [] => []
  | b :: rest =>
    let s := stepBlock g currentY b
    (s.1, s.2.1) :: paginateLoop g s.2.2 rest

/-- The whole layout pass `checkPagination` on a mounted block list:
reset every block, then run the placement loop with `currentY`
initialized to `MARGIN_TOP`; instrumented with each block's final
absolute top. -/
def checkPaginationFull (g : Geometry) (bs : List DomBlock) :
    List (DomBlock × Int) :=
  paginateLoop g g.marginTop (resetBlocks bs)

/-- The layout pass as it leaves the DOM: the updated blocks only. -/
def checkPagination (g : Geometry) (bs : List DomBlock) : List DomBlock :=
  (checkPaginationFull g bs).map Prod.fst

/-- The successive values of `currentY` across the pass (before the
first block, after each block). -/
def currentYTrace (g : Geometry) (currentY : Int) :
    List DomBlock → List Int
  | [] => [currentY]
  | b :: rest => currentY :: currentYTrace g (stepBlock g currentY b).2.2 rest

/-- A plain content block of the given height with no bottom margin and
cleared layout outputs, as used in concrete scenarios. -/
def plainBlock (h : Int) : DomBlock := ⟨h, 0, 0, false⟩

/-- Floor-division lower bound: `Math.floor(y / ph) * ph ≤ y` for a
positive page height. -/
lemma fdiv_mul_self_le (y ph : Int) (hph : 0 < ph) :
    Int.fdiv y ph * ph ≤ y := by
  rw [Int.fdiv_eq_ediv _ hph.le, mul_comm]
  have h1 := Int.ediv_add_emod y ph
  have h2 := Int.emod_nonneg y (ne_of_gt hph)
  linarith

/-- The pass never changes a block's measured height. -/
lemma stepBlock_height (g : Geometry) (y : Int) (b : DomBlock) :
    (stepBlock g y b).1.height = b.height := by
  simp only [stepBlock]
  split_ifs <;> rfl

/-- The pass never changes a block's bottom margin. -/
lemma stepBlock_marginBottom (g : Geometry) (y : Int) (b : DomBlock) :
    (stepBlock g y b).1.marginBottom = b.marginBottom := by
  simp only [stepBlock]
  split_ifs <;> rfl

/-- Resetting the output of a step gives back the reset input: the step
only writes the spacer and the break flag. -/
lemma stepBlock_resetBlock (g : Geometry) (y : Int) (b : DomBlock) :
    resetBlock (stepBlock g y b).1 = resetBlock b := by
  simp only [stepBlock]
  split_ifs <;> rfl

/-- C1: Scenario A of the spec.  With `pageHeight = 1000`,
`marginTop = 50`, `marginBottom = 50` and blocks of heights
`[200, 700, 100]` with zero bottom margins: block 1 is placed at top 50
with no spacer and no break, block 2 at top 250 (bottom 950, flush fit,
no spacer, no break), and block 3 (top 950, bottom 1050 overflowing the
printable end 950) is pushed with leading spacer 100 and a page break,
landing at absolute top 1050. -/
theorem scenarioA_layout :
    checkPaginationFull ⟨1000, 50, 50⟩
        [plainBlock 200, plainBlock 700, plainBlock 100] =
      [(⟨200, 0, 0, false⟩, 50), (⟨700, 0, 0, false⟩, 250),
        (⟨100, 0, 100, true⟩, 1050)] ∧
    (250 : Int) + 700 = 950 ∧
    (0 : Int) * 1000 + 1000 - 50 = 950 := by
  refine ⟨?_, by norm_num, by norm_num⟩
  decide

/-- C6: a block whose bottom lands exactly on the current page's
printable end is not pushed: the overflow comparison is strict, so the
(reset) block keeps spacer 0 and break flag false, stays at the current
position, and `currentY` advances past it normally. -/
theorem flushFit_not_pushed (g : Geometry) (y : Int) (b : DomBlock)
    (hflush : y + b.height =
      Int.fdiv y g.pageHeight * g.pageHeight + g.pageHeight - g.marginBottom) :
    stepBlock g y (resetBlock b) =
        (resetBlock b, y, y + b.height + b.marginBottom) ∧
    (resetBlock b).spacerStyle = 0 ∧ (resetBlock b).pageBreak = false := by
  refine ⟨?_, rfl, rfl⟩
  simp only [stepBlock, resetBlock]
  rw [if_neg]
  rw [hflush]
  exact lt_irrefl _

/-- Witness for `flushFit_not_pushed`: with geometry 1000/50/50 a block
of height 700 at `currentY = 250` has bottom `950`, exactly the page's
printable end, and is left in place. -/
theorem flushFit_not_pushed_witness :
    ((250 : Int) + (plainBlock 700).height =
      Int.fdiv 250 (Geometry.pageHeight ⟨1000, 50, 50⟩) *
          Geometry.pageHeight ⟨1000, 50, 50⟩ +
        Geometry.pageHeight ⟨1000, 50, 50⟩ -
        Geometry.marginBottom ⟨1000, 50, 50⟩) ∧
    stepBlock ⟨1000, 50, 50⟩ 250 (resetBlock (plainBlock 700)) =
      (resetBlock (plainBlock 700), 250,
        250 + (plainBlock 700).height + (plainBlock 700).marginBottom) :=
  ⟨by decide,
    (flushFit_not_pushed ⟨1000, 50, 50⟩ 250 (plainBlock 700) (by decide)).1⟩

/-- Resetting twice is resetting once. -/
lemma resetBlock_idem (b : DomBlock) :
    resetBlock (resetBlock b) = resetBlock b := rfl

/-- Mapping the reset over the loop's output recovers the reset input
list: the loop only rewrites the fields that the reset clears. -/
lemma paginateLoop_resetMap (g : Geometry) :
    ∀ (bs : List DomBlock) (y : Int),
      (paginateLoop g y bs).map (fun p => resetBlock p.1) =
        bs.map resetBlock := by
  intro bs
  induction bs with
  | nil => intro y; rfl
  | cons b rest ih =>
    intro y
    simp only [paginateLoop, List.map_cons]
    rw [stepBlock_resetBlock, ih]

/-- C7: the layout pass is idempotent — running it a second time on its
own output (unchanged heights and margins) leaves every block's spacer
and break flag exactly as the first run computed them. -/
theorem layout_idempotent (g : Geometry) (bs : List DomBlock) :
    checkPagination g (checkPagination g bs) = checkPagination g bs := by
  have hreset : resetBlocks (checkPagination g bs) = resetBlocks bs := by
    unfold checkPagination checkPaginationFull resetBlocks
    rw [List.map_map]
    have h := paginateLoop_resetMap g (bs.map resetBlock) g.marginTop
    calc (paginateLoop g g.marginTop (bs.map resetBlock)).map
            (resetBlock ∘ Prod.fst)
        = (paginateLoop g g.marginTop (bs.map resetBlock)).map
            (fun p => resetBlock p.1) := rfl
      _ = (bs.map resetBlock).map resetBlock := h
      _ = bs.map resetBlock := by
          rw [List.map_map]
          have hcomp : resetBlock ∘ resetBlock = resetBlock :=
            funext resetBlock_idem
          rw [hcomp]
  show (paginateLoop g g.marginTop
      (resetBlocks (checkPagination g bs))).map Prod.fst = _
  rw [hreset]
  rfl

/-- In the loop over reset blocks, the break flag is written exactly
when a positive spacer is written. -/
lemma paginateLoop_break_iff (g : Geometry) :
    ∀ (bs : List DomBlock) (y : Int),
      (∀ b ∈ bs, b.spacerStyle = 0 ∧ b.pageBreak = false) →
      ∀ p ∈ paginateLoop g y bs,
        (p.1.pageBreak = true ↔ 0 < p.1.spacerStyle) := by
  intro bs
  induction bs with
  | nil => intro y _ p hp; simp [paginateLoop] at hp
  | cons b rest ih =>
    intro y hb p hp
    simp only [paginateLoop, List.mem_cons] at hp
    rcases hp with hp | hp
    · subst hp
      have hb0 := hb b (List.mem_cons_self b rest)
      simp only [stepBlock]
      split_ifs with h1 h2
      · simpa using h2
      · simp [hb0.1, hb0.2]
      · simp [hb0.1, hb0.2]
    · exact ih _ (fun x hx => hb x (List.mem_cons_of_mem _ hx)) p hp

/-- C10: after a layout pass, a block carries the page-break marker if
and only if its leading spacer is strictly positive. -/
theorem break_iff_spacer_pos (g : Geometry) (bs : List DomBlock)
    (b : DomBlock) (hb : b ∈ checkPagination g bs) :
    b.pageBreak = true ↔ 0 < b.spacerStyle := by
  unfold checkPagination at hb
  rcases List.mem_map.mp hb with ⟨p, hp, rfl⟩
  refine paginateLoop_break_iff g (resetBlocks bs) g.marginTop ?_ p hp
  intro x hx
  rcases List.mem_map.mp hx with ⟨x0, _, rfl⟩
  exact ⟨rfl, rfl⟩

/-- Witness for `break_iff_spacer_pos`: the pushed third block of
Scenario A carries both the break marker and the positive spacer. -/
theorem break_iff_spacer_pos_witness :
    (⟨100, 0, 100, true⟩ : DomBlock) ∈
        checkPagination ⟨1000, 50, 50⟩
          [plainBlock 200, plainBlock 700, plainBlock 100] ∧
    ((⟨100, 0, 100, true⟩ : DomBlock).pageBreak = true ↔
      0 < (⟨100, 0, 100, true⟩ : DomBlock).spacerStyle) :=
  ⟨by decide,
    break_iff_spacer_pos ⟨1000, 50, 50⟩
      [plainBlock 200, plainBlock 700, plainBlock 100]
      ⟨100, 0, 100, true⟩ (by decide)⟩

/-- With a positive page height, non-negative top margin and a block of
non-negative height and bottom margin, a step never moves `currentY`
backwards. -/
lemma stepBlock_currentY_le (g : Geometry) (y : Int) (b : DomBlock)
    (hph : 0 < g.pageHeight) (hmt : 0 ≤ g.marginTop)
    (hh : 0 ≤ b.height) (hmb : 0 ≤ b.marginBottom) :
    y ≤ (stepBlock g y b).2.2 := by
  have hlt := Int.lt_fdiv_add_one_mul_self y hph
  simp only [stepBlock]
  split_ifs <;> dsimp only <;> linarith

/-- The successive `currentY` values of the pass are non-decreasing. -/
lemma currentYTrace_chain (g : Geometry)
    (hph : 0 < g.pageHeight) (hmt : 0 ≤ g.marginTop) :
    ∀ (bs : List DomBlock),
      (∀ b ∈ bs, 0 ≤ b.height ∧ 0 ≤ b.marginBottom) →
      ∀ y, List.Chain' (fun a c => a ≤ c) (currentYTrace g y bs) := by
  intro bs
  induction bs with
  | nil => intro _ y; simp [currentYTrace]
  | cons b rest ih =>
    intro hb y
    have hb0 := hb b (List.mem_cons_self b rest)
    have hstep : y ≤ (stepBlock g y b).2.2 :=
      stepBlock_currentY_le g y b hph hmt hb0.1 hb0.2
    have htail :=
      ih (fun x hx => hb x (List.mem_cons_of_mem _ hx)) (stepBlock g y b).2.2
    cases rest with
    | nil =>
      simp only [currentYTrace, List.chain'_pair]
      exact hstep
    | cons c cs =>
      simp only [currentYTrace] at htail ⊢
      exact (List.chain'_cons).mpr ⟨hstep, htail⟩

/-- The loop returns one output per input block, in input order, with
the input's measured height and bottom margin unchanged. -/
lemma paginateLoop_measures (g : Geometry) :
    ∀ (bs : List DomBlock) (y : Int),
      (paginateLoop g y bs).map (fun p => (p.1.height, p.1.marginBottom)) =
        bs.map (fun b => (b.height, b.marginBottom)) := by
  intro bs
  induction bs with
  | nil => intro y; rfl
  | cons b rest ih =>
    intro y
    simp only [paginateLoop, List.map_cons]
    rw [stepBlock_height, stepBlock_marginBottom, ih]

/-- The first outputs of the loop on an extended list are the outputs
on the original list: later blocks never influence earlier ones. -/
lemma paginateLoop_take_append (g : Geometry) (cs : List DomBlock) :
    ∀ (as : List DomBlock) (y : Int),
      (paginateLoop g y (as ++ cs)).take as.length =
        paginateLoop g y as := by
  intro as
  induction as with
  | nil => intro y; rfl
  | cons b rest ih =>
    intro y
    simp only [List.cons_append, paginateLoop, List.length_cons,
      List.take_succ_cons, List.append_eq]
    rw [ih]

/-- C8: the layout pass visits the blocks in input order (each output
block keeps its position, height and bottom margin), `currentY` is
monotonically non-decreasing across the pass for non-negative heights
and margins, and a block's placement depends only on the blocks before
it: appending further blocks does not change the earlier outputs. -/
theorem layout_order_monotone (g : Geometry) (bs : List DomBlock)
    (hph : 0 < g.pageHeight) (hmt : 0 ≤ g.marginTop)
    (hb : ∀ b ∈ bs, 0 ≤ b.height ∧ 0 ≤ b.marginBottom) :
    List.Chain' (fun a c => a ≤ c)
        (currentYTrace g g.marginTop (resetBlocks bs)) ∧
    (checkPagination g bs).map (fun b => (b.height, b.marginBottom)) =
        bs.map (fun b => (b.height, b.marginBottom)) ∧
    ∀ cs, (checkPaginationFull g (bs ++ cs)).take bs.length =
        checkPaginationFull g bs := by
  refine ⟨?_, ?_, ?_⟩
  · refine currentYTrace_chain g hph hmt (resetBlocks bs) ?_ g.marginTop
    intro x hx
    rcases List.mem_map.mp hx with ⟨x0, hx0, rfl⟩
    exact hb x0 hx0
  · unfold checkPagination checkPaginationFull
    rw [List.map_map]
    have h := paginateLoop_measures g (resetBlocks bs) g.marginTop
    calc (paginateLoop g g.marginTop (resetBlocks bs)).map
            ((fun b => (b.height, b.marginBottom)) ∘ Prod.fst)
        = (paginateLoop g g.marginTop (resetBlocks bs)).map
            (fun p => (p.1.height, p.1.marginBottom)) := rfl
      _ = (resetBlocks bs).map (fun b => (b.height, b.marginBottom)) := h
      _ = bs.map (fun b => (b.height, b.marginBottom)) := by
          unfold resetBlocks
          rw [List.map_map]
          rfl
  · intro cs
    unfold checkPaginationFull resetBlocks
    rw [List.map_append]
    have := paginateLoop_take_append g (cs.map resetBlock)
      (bs.map resetBlock) g.marginTop
    rw [show bs.length = (bs.map resetBlock).length by
      rw [List.length_map]]
    exact this

/-- Witness for `layout_order_monotone`: Scenario A's geometry and
blocks give the non-decreasing trace `[50, 250, 950, 1150]`. -/
theorem layout_order_monotone_witness :
    ((0 : Int) < 1000 ∧ (0 : Int) ≤ 50 ∧
      ∀ b ∈ [plainBlock 200, plainBlock 700, plainBlock 100],
        (0 : Int) ≤ b.height ∧ (0 : Int) ≤ b.marginBottom) ∧
    List.Chain' (fun a c => a ≤ c)
      (currentYTrace ⟨1000, 50, 50⟩ 50
        (resetBlocks [plainBlock 200, plainBlock 700, plainBlock 100])) :=
  ⟨⟨by decide, by decide, by decide⟩,
    (layout_order_monotone ⟨1000, 50, 50⟩
      [plainBlock 200, plainBlock 700, plainBlock 100]
      (by decide) (by decide) (by decide)).1⟩

/-- One step keeps the placed block inside its page when the block fits
the printable band: its final top `t` sits at or after the floor
boundary `fdiv t pageHeight * pageHeight`, and its bottom at or before
that page's printable end. -/
lemma stepBlock_no_straddle (g : Geometry) (y : Int) (b : DomBlock)
    (hph : 0 < g.pageHeight) (hmt : 0 ≤ g.marginTop)
    (hmtlt : g.marginTop < g.pageHeight)
    (hband : b.height ≤ g.pageHeight - g.marginTop - g.marginBottom) :
    Int.fdiv (stepBlock g y b).2.1 g.pageHeight * g.pageHeight ≤
        (stepBlock g y b).2.1 ∧
    (stepBlock g y b).2.1 + b.height ≤
      (Int.fdiv (stepBlock g y b).2.1 g.pageHeight + 1) * g.pageHeight -
        g.marginBottom := by
  refine ⟨fdiv_mul_self_le _ _ hph, ?_⟩
  have hlt := Int.lt_fdiv_add_one_mul_self y hph
  simp only [stepBlock]
  split_ifs with h1 h2
  · dsimp only
    have hpage : Int.fdiv
        ((Int.fdiv y g.pageHeight + 1) * g.pageHeight + g.marginTop)
          g.pageHeight = Int.fdiv y g.pageHeight + 1 := by
      rw [Int.fdiv_eq_ediv _ hph.le, add_comm,
        Int.add_mul_ediv_right g.marginTop _ (ne_of_gt hph),
        Int.ediv_eq_zero_of_lt hmt hmtlt, zero_add]
    rw [hpage]
    have hexp : (Int.fdiv y g.pageHeight + 1 + 1) * g.pageHeight =
        (Int.fdiv y g.pageHeight + 1) * g.pageHeight + g.pageHeight := by
      ring
    rw [hexp]
    linarith
  · exact absurd (by linarith) h2
  · dsimp only
    have hexp : (Int.fdiv y g.pageHeight + 1) * g.pageHeight =
        Int.fdiv y g.pageHeight * g.pageHeight + g.pageHeight := by
      ring
    rw [hexp]
    linarith

/-- Every output of the placement loop on a block that fits the
printable band lies within one page. -/
lemma paginateLoop_no_straddle (g : Geometry)
    (hph : 0 < g.pageHeight) (hmt : 0 ≤ g.marginTop)
    (hmtlt : g.marginTop < g.pageHeight) :
    ∀ (bs : List DomBlock) (y : Int), ∀ p ∈ paginateLoop g y bs,
      p.1.height ≤ g.pageHeight - g.marginTop - g.marginBottom →
      Int.fdiv p.2 g.pageHeight * g.pageHeight ≤ p.2 ∧
      p.2 + p.1.height ≤
        (Int.fdiv p.2 g.pageHeight + 1) * g.pageHeight -
          g.marginBottom := by
  intro bs
  induction bs with
  | nil => intro y p hp; simp [paginateLoop] at hp
  | cons b rest ih =>
    intro y p hp hband
    simp only [paginateLoop, List.mem_cons] at hp
    rcases hp with hp | hp
    · subst hp
      rw [stepBlock_height] at hband ⊢
      exact stepBlock_no_straddle g y b hph hmt hmtlt hband
    · exact ih _ p hp hband

/-- Amended C2: after the pass, every block whose height fits the
printable band lies entirely within one logical page — its final top is
at or after the page's floor boundary and its bottom at or before the
page's printable end (so no block straddles a `k * pageHeight`
boundary). -/
theorem layout_no_straddle (g : Geometry) (bs : List DomBlock)
    (hph : 0 < g.pageHeight) (hmt : 0 ≤ g.marginTop)
    (hmtlt : g.marginTop < g.pageHeight) :
    ∀ p ∈ checkPaginationFull g bs,
      p.1.height ≤ g.pageHeight - g.marginTop - g.marginBottom →
      Int.fdiv p.2 g.pageHeight * g.pageHeight ≤ p.2 ∧
      p.2 + p.1.height ≤
        (Int.fdiv p.2 g.pageHeight + 1) * g.pageHeight -
          g.marginBottom := by
  unfold checkPaginationFull
  exact paginateLoop_no_straddle g hph hmt hmtlt (resetBlocks bs)
    g.marginTop

/-- Witness for `layout_no_straddle`: the Scenario A blocks all fit the
band, so the pushed third block sits inside page 1. -/
theorem layout_no_straddle_witness :
    ((0 : Int) < 1000 ∧
      ((⟨100, 0, 100, true⟩ : DomBlock), (1050 : Int)) ∈
        checkPaginationFull ⟨1000, 50, 50⟩
          [plainBlock 200, plainBlock 700, plainBlock 100] ∧
      (⟨100, 0, 100, true⟩ : DomBlock).height ≤ 1000 - 50 - 50) ∧
    (Int.fdiv 1050 1000 * 1000 ≤ (1050 : Int) ∧
      (1050 : Int) + (⟨100, 0, 100, true⟩ : DomBlock).height ≤
        (Int.fdiv 1050 1000 + 1) * 1000 - 50) :=
  ⟨⟨by decide, by decide, by decide⟩,
    layout_no_straddle ⟨1000, 50, 50⟩
      [plainBlock 200, plainBlock 700, plainBlock 100]
      (by decide) (by decide) (by decide)
      (⟨100, 0, 100, true⟩, 1050) (by decide) (by decide)⟩

/-- Counterexample to C2 as stated: with geometry 1000/50/50, a first
block of height 900 with bottom margin 50 ends flush at 950, and the
carried margin lands the second block (height 100, well within the
band) at top 1000 — on page 1, but strictly before that page's
marginTop offset 1050, and no spacer is inserted. -/
theorem layout_top_margin_band_counterexample :
    (checkPaginationFull ⟨1000, 50, 50⟩
        [⟨900, 50, 0, false⟩, plainBlock 100]).map Prod.snd =
          [50, 1000] ∧
    (checkPagination ⟨1000, 50, 50⟩
        [⟨900, 50, 0, false⟩, plainBlock 100]).map
          DomBlock.spacerStyle = [0, 0] ∧
    ¬ (Int.fdiv 1000 1000 * 1000 + 50 ≤ (1000 : Int)) ∧
    (plainBlock 100).height ≤ (1000 : Int) - 50 - 50 := by
  exact ⟨by decide, by decide, by decide, by decide⟩

/-- The page-slicing `while (heightLeft > 0)` loop of `generatePdf`,
written with explicit fuel (one unit per iteration): each pass records
the current `position` (the image is drawn at vertical offset
`-position`), then advances `position` by one page height and decrements
`heightLeft` by the same amount. -/
def sliceGo (pdfHeight : ℚ) : ℕ → ℚ → ℚ → List ℚ
  | 0, _, _ => []
  | n + 1, heightLeft, position =>
    if heightLeft > 0 then
      position :: sliceGo pdfHeight n (heightLeft - pdfHeight)
        (position + pdfHeight)
    else []

/-- The slicing loop of `generatePdf` on a captured image of scaled
height `imgHeight` and output page height `pdfHeight`: `heightLeft`
starts at `imgHeight`, `position` at `0`.  The fuel
`⌈imgHeight / pdfHeight⌉ + 1` is one more than the number of loop
iterations, so the loop's exit test decides termination exactly as in
the source (`sliceGo_fuel_stable` shows any larger fuel gives the same
result). -/
def slicePages (imgHeight pdfHeight : ℚ) : List ℚ :=
  sliceGo pdfHeight ((Int.ceil (imgHeight / pdfHeight)).toNat + 1)
    imgHeight 0

/-- Fuel adequacy: once the fuel covers the remaining height, adding
more fuel does not change the result of the slicing loop. -/
lemma sliceGo_fuel_stable (pdfHeight : ℚ) :
    ∀ (n m : ℕ) (h pos : ℚ), h ≤ n * pdfHeight → n ≤ m →
      sliceGo pdfHeight n h pos = sliceGo pdfHeight m h pos := by
  intro n
  induction n with
  | zero =>
    intro m h pos hle _
    cases m with
    | zero => rfl
    | succ m =>
      simp only [sliceGo]
      rw [if_neg]
      simp only [Nat.cast_zero, zero_mul] at hle
      exact not_lt.mpr hle
  | succ n ih =>
    intro m h pos hle hnm
    cases m with
    | zero => exact absurd hnm (by omega)
    | succ m =>
      simp only [sliceGo]
      by_cases hpos : h > 0
      · rw [if_pos hpos, if_pos hpos]
        have : h - pdfHeight ≤ n * pdfHeight := by
          push_cast at hle ⊢
          linarith
        rw [ih m (h - pdfHeight) (pos + pdfHeight) this (by omega)]
      · rw [if_neg hpos, if_neg hpos]

/-- The slicing loop runs exactly `⌈h / P⌉` iterations (when the fuel
suffices), one output page per iteration. -/
lemma sliceGo_length (pdfHeight : ℚ) (hP : 0 < pdfHeight) :
    ∀ (n : ℕ) (h pos : ℚ), h ≤ n * pdfHeight →
      (sliceGo pdfHeight n h pos).length =
        (Int.ceil (h / pdfHeight)).toNat := by
  intro n
  induction n with
  | zero =>
    intro h pos hle
    simp only [Nat.cast_zero, zero_mul] at hle
    have hc : Int.ceil (h / pdfHeight) ≤ 0 := by
      rw [Int.ceil_le]
      push_cast
      exact div_nonpos_of_nonpos_of_nonneg hle hP.le
    simp [sliceGo, Int.toNat_of_nonpos hc]
  | succ n ih =>
    intro h pos hle
    simp only [sliceGo]
    by_cases hpos : h > 0
    · rw [if_pos hpos]
      have hrec : h - pdfHeight ≤ n * pdfHeight := by
        push_cast at hle ⊢
        linarith
      simp only [List.length_cons, ih (h - pdfHeight) (pos + pdfHeight) hrec]
      have hdiv : (h - pdfHeight) / pdfHeight = h / pdfHeight - 1 := by
        field_simp
      rw [hdiv, Int.ceil_sub_one]
      have hcpos : 0 < Int.ceil (h / pdfHeight) :=
        Int.ceil_pos.mpr (div_pos hpos hP)
      omega
    · rw [if_neg hpos]
      have hc : Int.ceil (h / pdfHeight) ≤ 0 := by
        rw [Int.ceil_le]
        push_cast
        exact div_nonpos_of_nonpos_of_nonneg (not_lt.mp hpos) hP.le
      simp [Int.toNat_of_nonpos hc]

/-- The slicing loop records an arithmetic progression of positions:
the initial position advanced by one page height per output page. -/
lemma sliceGo_positions_ex (pdfHeight : ℚ) :
    ∀ (n : ℕ) (h pos : ℚ), ∃ m,
      sliceGo pdfHeight n h pos =
        (List.range m).map (fun k : ℕ => pos + (k : ℚ) * pdfHeight) := by
  intro n
  induction n with
  | zero => intro h pos; exact ⟨0, rfl⟩
  | succ n ih =>
    intro h pos
    by_cases hpos : h > 0
    · obtain ⟨m, hm⟩ := ih (h - pdfHeight) (pos + pdfHeight)
      refine ⟨m + 1, ?_⟩
      simp only [sliceGo]
      rw [if_pos hpos, hm, List.range_succ_eq_map, List.map_cons,
        List.map_map]
      congr 1
      · simp
      · refine List.map_congr_left ?_
        intro k _
        simp only [Function.comp_apply, Nat.succ_eq_add_one]
        push_cast
        ring
    · refine ⟨0, ?_⟩
      simp only [sliceGo]
      rw [if_neg hpos]
      rfl

/-- The positions recorded by the slicing loop are
`pos, pos + P, pos + 2P, …`, one per output page. -/
lemma sliceGo_positions (pdfHeight : ℚ) (n : ℕ) (h pos : ℚ) :
    sliceGo pdfHeight n h pos =
      (List.range (sliceGo pdfHeight n h pos).length).map
        (fun k : ℕ => pos + (k : ℚ) * pdfHeight) := by
  obtain ⟨m, hm⟩ := sliceGo_positions_ex pdfHeight n h pos
  rw [hm]
  simp

/-- C3: for a captured image of scaled height `H > 0` and output page
height `P > 0`, the slicing loop of `generatePdf` emits exactly
`⌈H / P⌉` output pages, drawing the image at vertical offset `-(k * P)`
on the `k`-th page (0-based). -/
theorem generatePdf_slicing (imgHeight pdfHeight : ℚ)
    (hH : 0 < imgHeight) (hP : 0 < pdfHeight) :
    (slicePages imgHeight pdfHeight).length =
        (Int.ceil (imgHeight / pdfHeight)).toNat ∧
    slicePages imgHeight pdfHeight =
      (List.range ((Int.ceil (imgHeight / pdfHeight)).toNat)).map
        (fun k : ℕ => (k : ℚ) * pdfHeight) := by
  have hfuel : imgHeight ≤
      ((((Int.ceil (imgHeight / pdfHeight)).toNat + 1 : ℕ) : ℚ)) *
        pdfHeight := by
    have h1 : imgHeight / pdfHeight ≤
        ((Int.ceil (imgHeight / pdfHeight) : ℤ) : ℚ) := Int.le_ceil _
    have h2 : ((Int.ceil (imgHeight / pdfHeight) : ℤ) : ℚ) ≤
        (((Int.ceil (imgHeight / pdfHeight)).toNat : ℤ) : ℚ) := by
      exact_mod_cast Int.self_le_toNat _
    have h4 : imgHeight ≤
        (((Int.ceil (imgHeight / pdfHeight)).toNat : ℕ) : ℚ) *
          pdfHeight := by
      have h5 := mul_le_mul_of_nonneg_right (h1.trans h2) hP.le
      rw [div_mul_cancel₀ _ (ne_of_gt hP)] at h5
      exact_mod_cast h5
    have h6 : ((((Int.ceil (imgHeight / pdfHeight)).toNat + 1 : ℕ)) : ℚ) *
        pdfHeight =
        (((Int.ceil (imgHeight / pdfHeight)).toNat : ℕ) : ℚ) * pdfHeight +
          pdfHeight := by
      push_cast
      ring
    rw [h6]
    linarith
  have hlen : (slicePages imgHeight pdfHeight).length =
      (Int.ceil (imgHeight / pdfHeight)).toNat :=
    sliceGo_length pdfHeight hP _ imgHeight 0 hfuel
  refine ⟨hlen, ?_⟩
  have hpos := sliceGo_positions pdfHeight
    ((Int.ceil (imgHeight / pdfHeight)).toNat + 1) imgHeight 0
  unfold slicePages at hlen ⊢
  rw [hpos, hlen]
  simp only [zero_add]

/-- Witness for `generatePdf_slicing`: Scenario B — scaled height 2400,
page height 1000 give three output pages, and the third page's visible
content window is `2400 - 2 * 1000 = 400` high. -/
theorem generatePdf_slicing_witness :
    ((0 : ℚ) < 2400 ∧ (0 : ℚ) < 1000) ∧
    (slicePages 2400 1000).length =
        (Int.ceil ((2400 : ℚ) / 1000)).toNat ∧
    (Int.ceil ((2400 : ℚ) / 1000)).toNat = 3 ∧
    (2400 : ℚ) - 2 * 1000 = 400 :=
  ⟨⟨by norm_num, by norm_num⟩,
    (generatePdf_slicing 2400 1000 (by norm_num) (by norm_num)).1,
    by
      have hc : Int.ceil ((2400 : ℚ) / 1000) = 3 := by
        rw [Int.ceil_eq_iff]
        constructor <;> norm_num
      rw [hc]
      rfl,
    by norm_num⟩

/-- The document/DOM state that `generatePdf` reads and mutates:
whether the target element is mounted, how many `.rm-page-number`
marker elements exist, how many of them currently carry a temporary
`pdf-page-k` class, whether the `#pdf-export-styles` style element is
attached to the head, whether the element's background image is
temporarily hidden, whether the asynchronous `toJpeg` capture will
succeed (oracle for the one genuinely fallible step), whether a PDF
file was saved, and the page's `isSaving` flag. -/
structure ExportState where
  mounted : Bool
  pageMarkerCount : ℕ
  markedClasses : ℕ
  styleElAttached : Bool
  backgroundHidden : Bool
  captureOk : Bool
  savedPdf : Bool
  isSaving : Bool
deriving DecidableEq, Repr

/-- State-transition model of `generatePdf`.  `Except.error st` means
an exception propagates to the caller with the document left in state
`st`.  Mirrors the source order: missing element throws immediately;
otherwise the background is hidden, the counter-override style element
is attached and every page-number marker gets its temporary class; the
capture runs; only on capture success do the class/style cleanup, the
background restore, the slicing and the save run (the `catch` block
only logs and rethrows — it performs no cleanup). -/
def generatePdfModel (st : ExportState) : Except ExportState ExportState :=
  if st.mounted = false then Except.error st
  else
    let hidden := { st with backgroundHidden := true }
    let injected := { hidden with
      styleElAttached := true, markedClasses := st.pageMarkerCount }
    if injected.captureOk then
      let cleaned := { injected with
        markedClasses := 0, styleElAttached := false,
        backgroundHidden := false }
      Except.ok { cleaned with savedPdf := true }
    else Except.error injected

/-- State-transition model of the `handleExportPDF` click handler: if
the `proposal-content` element is absent it returns at once; otherwise
it sets `isSaving`, awaits `generatePdf`, alerts on failure (the
returned `Bool` is whether the failure alert was shown), and clears
`isSaving` in the `finally`. -/
def handleExportPDFModel (st : ExportState) : ExportState × Bool :=
  if st.mounted = false then (st, false)
  else
    match generatePdfModel { st with isSaving := true } with
    | Except.ok st2 => ({ st2 with isSaving := false }, false)
    | Except.error st2 => ({ st2 with isSaving := false }, true)

/-- The guard structure of `checkPagination`: `paper` is the result of
`document.getElementById`, and when present its inner value is the
result of `querySelector('.ProseMirror')`.  If either lookup fails the
function returns before touching any block; otherwise the pass runs
with the hardcoded A4 geometry.  `none` in the result means no layout
pass ran and nothing was mutated. -/
def checkPaginationEntry (paper : Option (Option (List DomBlock))) :
    Option (List (DomBlock × Int)) :=
  match paper with
  | none => none
  | some none => none
  | some (some blocks) => some (checkPaginationFull pageGeometryA4 blocks)

/-- C5: invoking layout recomputation or the export action while the
container is not mounted is a silent no-op: `checkPagination` returns
before computing anything (for a missing paper element or a missing
content area), and `handleExportPDF` returns with the state untouched,
no failure alert, no capture and no file save. -/
theorem unmounted_noop (st : ExportState)
    (hm : st.mounted = false) :
    handleExportPDFModel st = (st, false) ∧
    checkPaginationEntry none = none ∧
    checkPaginationEntry (some none) = none := by
  refine ⟨?_, rfl, rfl⟩
  unfold handleExportPDFModel
  rw [if_pos hm]

/-- Witness for `unmounted_noop` at a concrete unmounted state. -/
theorem unmounted_noop_witness :
    (ExportState.mounted ⟨false, 2, 0, false, false, true, false, false⟩ =
      false) ∧
    handleExportPDFModel ⟨false, 2, 0, false, false, true, false, false⟩ =
      (⟨false, 2, 0, false, false, true, false, false⟩, false) :=
  ⟨by decide,
    (unmounted_noop ⟨false, 2, 0, false, false, true, false, false⟩
      (by decide)).1⟩

/-- C4 (code bug): when the capture step of `generatePdf` throws, the
error is rethrown with the injected counter-override style element
still attached and every temporary `pdf-page-k` marker class still on
its element — the cleanup only runs on the success path.  On success
the cleanup does run. -/
theorem export_cleanup_leak_on_capture_failure :
    (generatePdfModel ⟨true, 2, 0, false, false, false, false, false⟩ =
      Except.error ⟨true, 2, 2, true, true, false, false, false⟩) ∧
    (generatePdfModel ⟨true, 2, 0, false, false, true, false, false⟩ =
      Except.ok ⟨true, 2, 0, false, false, true, true, false⟩) := by
  exact ⟨rfl, rfl⟩

/-- Model of the JavaScript `Number(s)` string coercion on the plain
decimal numerals a margin input field can hold: the empty string
coerces to `0`, an optional sign followed by decimal digits with at
most one decimal point parses to its value, and anything else is `NaN`
(`none`). -/
def jsNumberUnsigned (cs : List Char) : Option ℚ :=
  let intPart := cs.takeWhile Char.isDigit
  let rest := cs.dropWhile Char.isDigit
  let intVal : ℕ := intPart.foldl (fun a c => 10 * a + (c.toNat - 48)) 0
  match rest with
  | [] => if intPart = [] then none else some intVal
  | '.' :: frac =>
    if frac.all Char.isDigit ∧ (intPart ≠ [] ∨ frac ≠ []) then
      some ((intVal : ℚ) +
        (frac.foldl (fun a c => 10 * a + (c.toNat - 48)) 0 : ℕ) /
          (10 : ℚ) ^ frac.length)
    else none
  | _ => none

/-- JavaScript `Number(s)` for a margin input string (`none` = NaN). -/
def jsNumber (s : String) : Option ℚ :=
  match s.data with
  | [] => some 0
  | '-' :: rest => (jsNumberUnsigned rest).map Neg.neg
  | '+' :: rest => jsNumberUnsigned rest
  | cs => jsNumberUnsigned cs

/-- JavaScript `a || b` applied to the result of a `Number` coercion:
`NaN` and `0` are the falsy numbers, so either selects the default. -/
def jsOrDefault (v : Option ℚ) (d : ℚ) : ℚ :=
  match v with
  | none => d
  | some x => if x = 0 then d else x

/-- The margins object built by `applyPageSetup`:
`{ top: Number(marginTop) || 50, … }`. -/
structure SetupMargins where
  top : ℚ
  bottom : ℚ
  left : ℚ
  right : ℚ
deriving DecidableEq, Repr

/-- The margin bundle `applyPageSetup` passes to `updateMargins`, built
from the four margin input strings. -/
def applyPageSetupMargins (marginTop marginBottom marginLeft
    marginRight : String) : SetupMargins :=
  { top := jsOrDefault (jsNumber marginTop) 50
    bottom := jsOrDefault (jsNumber marginBottom) 50
    left := jsOrDefault (jsNumber marginLeft) 50
    right := jsOrDefault (jsNumber marginRight) 50 }

/-- C9: any margin input whose `Number` coercion is falsy — `NaN`, an
explicit `0`, or the empty string (which coerces to `0`) — is silently
replaced by the fallback default `50`; consequently no applied margin
is ever `0` through this interface. -/
theorem applyPageSetup_falsy_margin (s : String)
    (hf : jsNumber s = none ∨ jsNumber s = some 0) :
    applyPageSetupMargins s s s s = ⟨50, 50, 50, 50⟩ ∧
    ∀ t : String, (applyPageSetupMargins t t t t).top ≠ 0 := by
  constructor
  · have h50 : jsOrDefault (jsNumber s) 50 = 50 := by
      rcases hf with hf | hf <;> rw [hf] <;> rfl
    unfold applyPageSetupMargins
    rw [h50]
  · intro t
    unfold applyPageSetupMargins jsOrDefault
    dsimp only
    rcases jsNumber t with _ | x
    · norm_num
    · dsimp only
      split_ifs with hx
      · norm_num
      · exact hx

/-- Witness for `applyPageSetup_falsy_margin`: the inputs `"0"`,
`""` and `"abc"` all coerce falsy, and `"0"` yields margins of 50. -/
theorem applyPageSetup_falsy_margin_witness :
    (jsNumber "0" = some 0 ∧ jsNumber "" = some 0 ∧
      jsNumber "abc" = none) ∧
    applyPageSetupMargins "0" "0" "0" "0" = ⟨50, 50, 50, 50⟩ :=
  ⟨⟨by decide, by decide, by decide⟩,
    (applyPageSetup_falsy_margin "0" (Or.inr (by decide))).1⟩

end Naraworks
